import Mathlib

/-!
Shallow embedding of the batched nearest-neighbor matcher from
`L3/06_nearest-neighbor-faster.ipynb` (`get_nearest` / `nearest_neighbor`).

The notebook code calls `sklearn.neighbors.BallTree` with
`leaf_size=15, metric='haversine'` and queries it with
`tree.query(src_points, k=k_neighbors)`.  The BallTree itself is an
external library; it is modelled here by its documented behaviour:

* construction validates the candidate array (`check_array` raises an
  untyped `ValueError` when there are zero samples) and builds a binary
  partition tree whose shape depends on `leaf_size`;
* `query` validates the query array (an untyped `ValueError` when it has
  zero samples) and the neighbor count (`ValueError` when
  `k > n_samples`), and then returns, per query point, the `k` nearest
  candidates sorted by ascending distance, as two `(n_queries, k)`
  arrays `(distances, indices)`.  Exact results, no randomisation; ties
  are broken deterministically (modelled as lowest candidate index
  first).

Python exceptions are modelled with `Except`; numpy 2-d arrays are
modelled as lists of rows; `transpose` and row extraction (`indices[0]`,
raising `IndexError` when there is no row 0) are modelled explicitly.
All machinery is generic in the point type and the metric so that it can
be evaluated; the notebook instantiates it with the haversine metric
over real coordinates.  Definitions come first, then all theorems.
-/

set_option linter.unusedSectionVars false

namespace NN

section Defs

variable {P : Type} {α : Type} [LinearOrder α]

/-- Model of the Python exceptions relevant to the notebook code.  The
code itself only ever produces `valueError` (from sklearn input
validation), `keyError` (from `DataFrame.loc`) and `indexError` (from
numpy row indexing); `emptyCandidateSetError` and `invalidKError` model
the typed errors named by the specification, which the code never
raises. -/
inductive PyError where
  | valueError (msg : String)
  | keyError
  | indexError
  | emptyCandidateSetError
  | invalidKError
deriving DecidableEq

/-- Message of the `ValueError` raised by sklearn array validation when
the candidate array has zero samples. -/
def msgEmptyData : String := "Found array with 0 samples"

/-- Message of the `ValueError` raised by sklearn array validation when
the query array has zero samples (an empty query set yields a 0-sample,
1-d numpy array, which `check_array` rejects). -/
def msgBadQuery : String := "Expected a 2D array with at least 1 sample"

/-- Message of the `ValueError` raised by `BallTree.query` when `k`
exceeds the number of training points. -/
def msgKTooLarge : String := "k must be less than or equal to the number of training points"

/-- Ordering used to model the deterministic order in which the tree
query reports neighbors: by ascending distance, ties broken by ascending
candidate index. -/
def distLe {α : Type} [LinearOrder α] (p q : α × ℕ) : Prop :=
  p.1 < q.1 ∨ (p.1 = q.1 ∧ p.2 ≤ q.2)

instance {α : Type} [LinearOrder α] : DecidableRel (distLe (α := α)) := fun p q => by
  unfold distLe; infer_instance

instance {α : Type} [LinearOrder α] : IsTotal (α × ℕ) (distLe (α := α)) := by
  constructor
  intro p q
  unfold distLe
  rcases lt_trichotomy p.1 q.1 with h | h | h
  · exact Or.inl (Or.inl h)
  · rcases le_total p.2 q.2 with h2 | h2
    · exact Or.inl (Or.inr ⟨h, h2⟩)
    · exact Or.inr (Or.inr ⟨h.symm, h2⟩)
  · exact Or.inr (Or.inl h)

instance {α : Type} [LinearOrder α] : IsTrans (α × ℕ) (distLe (α := α)) := by
  constructor
  intro p q r hpq hqr
  unfold distLe at *
  rcases hpq with h | ⟨he, h2⟩
  · rcases hqr with h' | ⟨he', _⟩
    · exact Or.inl (h.trans h')
    · exact Or.inl (he' ▸ h)
  · rcases hqr with h' | ⟨he', h2'⟩
    · exact Or.inl (he ▸ h')
    · exact Or.inr ⟨he.trans he', h2.trans h2'⟩

/-- Binary partition tree over candidate indices, modelling the shape of
the BallTree built with a given `leaf_size`: index ranges are split in
half until they fit in a leaf. -/
inductive BTree where
  | leaf (idxs : List ℕ)
  | node (l r : BTree)

/-- Indices stored in a tree, in left-to-right order. -/
def BTree.elems : BTree → List ℕ
  | .leaf idxs => idxs
  | .node l r => l.elems ++ r.elems

/-- Fuelled construction of the partition tree: split the index list in
half until at most `max ls 1` indices remain. -/
def buildAux : ℕ → ℕ → List ℕ → BTree
  | 0, _, xs => .leaf xs
  | fuel + 1, ls, xs =>
    if xs.length ≤ max ls 1 then .leaf xs
    else .node (buildAux fuel ls (xs.take (xs.length / 2)))
               (buildAux fuel ls (xs.drop (xs.length / 2)))

/-- Partition tree over an index list for a given `leaf_size`. -/
def buildBTree (ls : ℕ) (xs : List ℕ) : BTree := buildAux xs.length ls xs

/-- Distance/index pairs `(d q c, i)` of the candidate sublist `cs`
against a query point `q`, where `cs` starts at candidate index `i`. -/
def pairsAux (d : P → P → α) (q : P) : ℕ → List P → List (α × ℕ)
  | _, [] => []
  | i, c :: cs => (d q c, i) :: pairsAux d q (i + 1) cs

/-- A `distLe`-least element of a pair list. -/
def MinPair (L : List (α × ℕ)) (m : α × ℕ) : Prop :=
  m ∈ L ∧ ∀ x ∈ L, distLe m x

/-- Accumulator loop of the brute-force nearest-candidate scan: walk the
candidate list left to right, keeping the first candidate whose distance
is strictly smaller than the best so far. -/
def bruteAux (d : P → P → α) (q : P) : List P → ℕ → Option (α × ℕ) → Option (α × ℕ)
  | [], _, best => best
  | c :: cs, i, none => bruteAux d q cs (i + 1) (some (d q c, i))
  | c :: cs, i, some b =>
    bruteAux d q cs (i + 1) (some (if d q c < b.1 then (d q c, i) else b))

/-- Brute-force scan over the whole candidate list: the distance and
index of the nearest candidate (`none` when there are no candidates),
ties resolved by keeping the earliest candidate. -/
def bruteScan (d : P → P → α) (q : P) (cands : List P) : Option (α × ℕ) :=
  bruteAux d q cands 0 none

/-- Index selected by the brute-force scan (0 when there are no
candidates, a case never used). -/
def bruteIdx (d : P → P → α) (q : P) (cands : List P) : ℕ :=
  (bruteScan d q cands).elim 0 Prod.snd

/-- Distance found by the brute-force scan (`d q q` as an unused
placeholder when there are no candidates). -/
def bruteD (d : P → P → α) (q : P) (cands : List P) : α :=
  (bruteScan d q cands).elim (d q q) Prod.fst

/-- Model of a fitted `sklearn.neighbors.BallTree`: the candidate data
and a partition tree over its indices whose shape depends on the
`leaf_size` passed at construction. -/
structure SKBallTree (P : Type) where
  data : List P
  tree : BTree
  leaf_size : ℕ

/-- Model of `BallTree(candidates, leaf_size, metric)`: sklearn array
validation rejects a candidate array with zero samples with an untyped
`ValueError`; otherwise the index over the candidate list is built. -/
def ballTreeBuild (cands : List P) (ls : ℕ) : Except PyError (SKBallTree P) :=
  if cands.isEmpty then .error (.valueError msgEmptyData)
  else .ok ⟨cands, buildBTree ls (List.range cands.length), ls⟩

/-- Distance/index pairs of all candidates stored in the tree, gathered
from the leaves in traversal order, for one query point. -/
def treeCandidates (d : P → P → α) (t : SKBallTree P) (q : P) : List (α × ℕ) :=
  t.tree.elems.filterMap (fun i => (t.data[i]?).map (fun c => (d q c, i)))

/-- Row of the query answer for one query point: all candidates sorted
by ascending distance (ties by ascending index), truncated to the first
`k`. -/
def queryRow (d : P → P → α) (t : SKBallTree P) (q : P) (k : ℕ) : List (α × ℕ) :=
  ((treeCandidates d t q).insertionSort distLe).take k

/-- Model of `tree.query(src_points, k)`: sklearn validates the query
array (untyped `ValueError` on zero samples) and the neighbor count
(untyped `ValueError` when `k` exceeds the number of training points),
then returns the pair of `(n_queries, k)` arrays `(distances, indices)`,
each row sorted by ascending distance. -/
def ballTreeQuery (d : P → P → α) (t : SKBallTree P) (src : List P) (k : ℕ) :
    Except PyError (List (List α) × List (List ℕ)) :=
  if src.isEmpty then .error (.valueError msgBadQuery)
  else if t.data.length < k then .error (.valueError msgKTooLarge)
  else .ok (src.map (fun q => (queryRow d t q k).map Prod.fst),
            src.map (fun q => (queryRow d t q k).map Prod.snd))

/-- Model of numpy `.transpose()` for a rectangular 2-d array given as a
list of rows: column `j` of the input becomes row `j` of the output. -/
def transposeMat {β : Type} (m : List (List β)) : List (List β) :=
  (List.range (m.headD []).length).map (fun j => m.filterMap (fun row => row[j]?))

/-- Embedding of `get_nearest(src_points, candidates, k_neighbors)` from
the notebook, generic in the metric `d` and the `leaf_size` `ls` (the
notebook passes the haversine metric and `leaf_size=15`): build the
BallTree over the candidates, query it, transpose the two result arrays,
and return row 0 of each (`indices[0]` / `distances[0]`; numpy raises an
untyped `IndexError` when there is no row 0). -/
def getNearestG (d : P → P → α) (ls : ℕ) (src_points candidates : List P)
    (k_neighbors : ℕ) : Except PyError (List ℕ × List α) := do
  let tree ← ballTreeBuild candidates ls
  let (distances, indices) ← ballTreeQuery d tree src_points k_neighbors
  let distancesT := transposeMat distances
  let indicesT := transposeMat indices
  match indicesT[0]?, distancesT[0]? with
  | some closest, some closest_dist => .ok (closest, closest_dist)
  | _, _ => .error .indexError

/-- Model of `right.loc[closest]`: select the rows of `rows` at the
given positions, in order; a missing label raises `KeyError`. -/
def locAll {β : Type} (rows : List β) : List ℕ → Except PyError (List β)
  | [] => .ok []
  | i :: is =>
    match rows[i]? with
    | some p =>
      match locAll rows is with
      | .ok ps => .ok (p :: ps)
      | .error e => .error e
    | none => .error .keyError

/-- Point in WGS84 decimal degrees `(x, y) = (longitude, latitude)`, or
its radian image; the notebook stores both as coordinate pairs. -/
abbrev RPt : Type := ℝ × ℝ

/-- Model of the sklearn haversine distance metric used through
`metric='haversine'`: the angular great-circle distance (radians)
between two coordinate pairs, where the metric interprets the FIRST
component of each pair as latitude and the second as longitude. -/
noncomputable def hav (a b : RPt) : ℝ :=
  2 * Real.arcsin (Real.sqrt
    ((Real.sin ((a.1 - b.1) / 2)) ^ 2 +
      Real.cos a.1 * Real.cos b.1 * (Real.sin ((a.2 - b.2) / 2)) ^ 2))

/-- Reference definition following the specification: the haversine
great-circle angular distance between the point at latitude `lat1`,
longitude `lon1` and the point at latitude `lat2`, longitude `lon2`
(all in radians). -/
noncomputable def trueHaversine (lat1 lon1 lat2 lon2 : ℝ) : ℝ :=
  2 * Real.arcsin (Real.sqrt
    ((Real.sin ((lat1 - lat2) / 2)) ^ 2 +
      Real.cos lat1 * Real.cos lat2 * (Real.sin ((lon1 - lon2) / 2)) ^ 2))

/-- Embedding of the coordinate conversion performed inside
`nearest_neighbor`: `geom.x * np.pi / 180` and `geom.y * np.pi / 180`,
building the pair `(x_rad, y_rad) = (lon_rad, lat_rad)`. -/
noncomputable def toRadians (p : RPt) : RPt :=
  (p.1 * Real.pi / 180, p.2 * Real.pi / 180)

/-- Mean Earth radius in meters, as in the notebook
(`earth_radius = 6371000`). -/
def earth_radius : ℝ := 6371000

/-- Embedding of the notebook function `get_nearest`: the generic
pipeline instantiated with the haversine metric and `leaf_size=15`,
exactly as in `BallTree(candidates, leaf_size=15, metric='haversine')`.
The notebook calls it with the default `k_neighbors=1`. -/
noncomputable def get_nearest (src_points candidates : List RPt) (k_neighbors : ℕ) :
    Except PyError (List ℕ × List ℝ) :=
  getNearestG hav 15 src_points candidates k_neighbors

/-- Result of `nearest_neighbor`: the returned data frame, holding the
selected candidate rows (geometry column) and, when requested, the
distance column in meters. -/
structure NNResult where
  geometry : List RPt
  distance : Option (List ℝ)

/-- Embedding of the notebook function `nearest_neighbor`: convert both
point sets to radians (as `(lon_rad, lat_rad)` pairs), call
`get_nearest`, select the matched candidate rows with `right.loc`, and
optionally attach the distance column `dist * earth_radius`. -/
noncomputable def nearest_neighbor (left_gdf right_gdf : List RPt) (return_dist : Bool) :
    Except PyError NNResult :=
  let right := right_gdf
  let left_radians := left_gdf.map toRadians
  let right_radians := right.map toRadians
  match get_nearest left_radians right_radians 1 with
  | .error e => .error e
  | .ok (closest, dist) =>
    match locAll right closest with
    | .error e => .error e
    | .ok closest_points =>
      if return_dist then
        .ok ⟨closest_points, some (dist.map (fun r => r * earth_radius))⟩
      else
        .ok ⟨closest_points, none⟩

/-- A pandas (Geo)DataFrame as used by the notebook: a geometry column
and an optional distance column. -/
structure PFrame where
  geom : List RPt
  dist : Option (List ℝ)

/-- Heap of frame objects; an address is a position in the list. -/
abbrev Heap : Type := List PFrame

/-- Read the frame at an address (a dummy empty frame out of range). -/
def readF (h : Heap) (a : ℕ) : PFrame := h.getD a ⟨[], none⟩

/-- Allocate a fresh frame object, returning the new heap and its
address. -/
def allocF (h : Heap) (f : PFrame) : Heap × ℕ := (h ++ [f], h.length)

/-- In-place assignment of the distance column of the frame at `a`,
modelling `df['distance'] = values`. -/
def writeDistCol (h : Heap) (a : ℕ) (dcol : List ℝ) : Heap :=
  h.set a ⟨(h.getD a ⟨[], none⟩).geom, some dcol⟩

/-- Stateful embedding of `nearest_neighbor` over the frame heap,
mirroring the object allocations of the Python code: `right` is a fresh
copy of `right_gdf` (`.copy().reset_index(drop=True)`),
`closest_points` is a fresh frame produced by `.loc` and again by
`.reset_index(drop=True)`, and the distance column is assigned in place
on that fresh frame only.  Returns the result (the address of the
returned frame, or the propagated exception) together with the heap
after the call. -/
noncomputable def nearest_neighbor_st (h : Heap) (la ra : ℕ) (return_dist : Bool) :
    Except PyError ℕ × Heap :=
  let left_gdf := readF h la
  let right_gdf := readF h ra
  let (h1, rcopy) := allocF h right_gdf
  let right := readF h1 rcopy
  let left_radians := left_gdf.geom.map toRadians
  let right_radians := right.geom.map toRadians
  match get_nearest left_radians right_radians 1 with
  | .error e => (.error e, h1)
  | .ok (closest, dist) =>
    match locAll right.geom closest with
    | .error e => (.error e, h1)
    | .ok pts =>
      let (h2, cp1) := allocF h1 ⟨pts, none⟩
      let (h3, cp2) := allocF h2 (readF h2 cp1)
      if return_dist then
        (.ok cp2, writeDistCol h3 cp2 (dist.map (fun r => r * earth_radius)))
      else
        (.ok cp2, h3)

end Defs

section Thms

variable {P : Type} {α : Type} [LinearOrder α]

theorem distLe_refl {α : Type} [LinearOrder α] (p : α × ℕ) : distLe p p :=
  Or.inr ⟨rfl, le_refl _⟩

theorem distLe_antisymm {α : Type} [LinearOrder α] {p q : α × ℕ}
    (h1 : distLe p q) (h2 : distLe q p) : p = q := by
  unfold distLe at h1 h2
  rcases h1 with h | ⟨he, hle⟩
  · rcases h2 with h' | ⟨he', _⟩
    · exact absurd h' (lt_asymm h)
    · exact absurd h (he' ▸ lt_irrefl _)
  · rcases h2 with h' | ⟨he', hle'⟩
    · exact absurd h' (he ▸ lt_irrefl _)
    · exact Prod.ext he (le_antisymm hle hle')

theorem elems_buildAux (ls : ℕ) :
    ∀ (fuel : ℕ) (xs : List ℕ), xs.length ≤ fuel → (buildAux fuel ls xs).elems = xs := by
  intro fuel
  induction fuel with
  | zero =>
    intro xs h
    have : xs = [] := List.length_eq_zero.mp (Nat.le_zero.mp h)
    simp [this, buildAux, BTree.elems]
  | succ n ih =>
    intro xs h
    rw [buildAux]
    by_cases hlen : xs.length ≤ max ls 1
    · simp [hlen, BTree.elems]
    · push_neg at hlen
      have hge2 : 2 ≤ xs.length := by
        have := le_max_right ls 1
        omega
      have hhalf : 1 ≤ xs.length / 2 := Nat.one_le_div_iff (by omega) |>.mpr (by omega)
      have hhalf2 : xs.length / 2 < xs.length := Nat.div_lt_self (by omega) (by omega)
      have ht : (xs.take (xs.length / 2)).length ≤ n := by
        rw [List.length_take]
        omega
      have hd : (xs.drop (xs.length / 2)).length ≤ n := by
        rw [List.length_drop]
        omega
      rw [if_neg (not_le.mpr hlen)]
      simp only [BTree.elems, ih _ ht, ih _ hd, List.take_append_drop]

/-- Building the tree rearranges but never loses or duplicates indices:
flattening recovers the original index list, whatever the `leaf_size`. -/
theorem elems_buildBTree (ls : ℕ) (xs : List ℕ) : (buildBTree ls xs).elems = xs :=
  elems_buildAux ls xs.length xs le_rfl

theorem pairsAux_length (d : P → P → α) (q : P) :
    ∀ (cs : List P) (i : ℕ), (pairsAux d q i cs).length = cs.length := by
  intro cs
  induction cs with
  | nil => intro i; simp [pairsAux]
  | cons c cs ih => intro i; simp [pairsAux, ih]

theorem pairsAux_snd_ge (d : P → P → α) (q : P) :
    ∀ (cs : List P) (i : ℕ) (p : α × ℕ), p ∈ pairsAux d q i cs → i ≤ p.2 := by
  intro cs
  induction cs with
  | nil => intro i p h; simp [pairsAux] at h
  | cons c cs ih =>
    intro i p h
    rw [pairsAux, List.mem_cons] at h
    rcases h with h | h
    · simp [h]
    · exact le_trans (Nat.le_succ i) (ih (i + 1) p h)

theorem pairsAux_snd_lt (d : P → P → α) (q : P) :
    ∀ (cs : List P) (i : ℕ) (p : α × ℕ), p ∈ pairsAux d q i cs → p.2 < i + cs.length := by
  intro cs
  induction cs with
  | nil => intro i p h; simp [pairsAux] at h
  | cons c cs ih =>
    intro i p h
    rw [pairsAux, List.mem_cons] at h
    rcases h with h | h
    · subst h
      show i < i + (c :: cs).length
      simp only [List.length_cons]
      omega
    · have := ih (i + 1) p h
      simp only [List.length_cons]
      omega

theorem pairsAux_pairwise (d : P → P → α) (q : P) :
    ∀ (cs : List P) (i : ℕ), (pairsAux d q i cs).Pairwise (fun p r => p.2 < r.2) := by
  intro cs
  induction cs with
  | nil => intro i; simp [pairsAux]
  | cons c cs ih =>
    intro i
    rw [pairsAux]
    refine List.Pairwise.cons ?_ (ih (i + 1))
    intro p hp
    have := pairsAux_snd_ge d q cs (i + 1) p hp
    omega

/-- The candidate pairs of a stored tree, recovered through the tree
leaves, coincide with the left-to-right scan of the candidate list. -/
theorem filterMap_range_eq_pairsAux (d : P → P → α) (q : P) :
    ∀ (cs : List P) (i : ℕ),
      (List.range cs.length).filterMap
        (fun j => (cs[j]?).map (fun c => (d q c, i + j))) = pairsAux d q i cs := by
  intro cs
  induction cs with
  | nil => intro i; simp [pairsAux]
  | cons c cs ih =>
    intro i
    rw [List.length_cons, List.range_succ_eq_map, List.filterMap_cons]
    simp only [List.getElem?_cons_zero, Option.map_some', List.filterMap_map, pairsAux]
    congr 1
    rw [← ih (i + 1)]
    apply List.filterMap_congr
    intro j hj
    simp only [Function.comp_apply, List.getElem?_cons_succ]
    cases cs[j]? with
    | none => rfl
    | some c' =>
      simp only [Option.map_some']
      congr 2
      omega

theorem minPair_unique {L : List (α × ℕ)} {m m' : α × ℕ}
    (h : MinPair L m) (h' : MinPair L m') : m = m' :=
  distLe_antisymm (h.2 m' h'.1) (h'.2 m h.1)

/-- Head of the insertion sort of a nonempty pair list is a
`distLe`-least element. -/
theorem head_insertionSort_minPair (L : List (α × ℕ)) (hL : L ≠ []) :
    ∃ m, (L.insertionSort distLe).head? = some m ∧ MinPair L m := by
  have hperm := L.perm_insertionSort distLe
  have hsorted := L.sorted_insertionSort distLe
  rcases hs : L.insertionSort distLe with _ | ⟨m, rest⟩
  · rw [hs] at hperm
    exact absurd (hperm.symm.eq_nil) hL
  · refine ⟨m, rfl, ?_, ?_⟩
    · have : m ∈ L.insertionSort distLe := by rw [hs]; exact List.mem_cons_self m rest
      exact hperm.mem_iff.mp this
    · intro x hx
      have hx' : x ∈ L.insertionSort distLe := hperm.mem_iff.mpr hx
      rw [hs] at hx'
      rcases List.mem_cons.mp hx' with h | h
      · exact h ▸ distLe_refl m
      · rw [hs] at hsorted
        exact List.rel_of_sorted_cons hsorted x h

theorem bruteAux_minPair (d : P → P → α) (q : P) :
    ∀ (cs : List P) (i : ℕ) (b : α × ℕ), b.2 < i →
      ∃ m, bruteAux d q cs i (some b) = some m ∧ MinPair (b :: pairsAux d q i cs) m := by
  intro cs
  induction cs with
  | nil =>
    intro i b _
    exact ⟨b, rfl, List.mem_cons_self b _, by
      intro x hx
      rcases List.mem_cons.mp hx with h | h
      · exact h ▸ distLe_refl b
      · simp [pairsAux] at h⟩
  | cons c cs ih =>
    intro i b hb
    rw [bruteAux]
    set b' : α × ℕ := if d q c < b.1 then (d q c, i) else b with hb'
    have hb'lt : b'.2 < i + 1 := by
      rw [hb']
      split
      · omega
      · omega
    obtain ⟨m, hm, hmem, hmin⟩ := ih (i + 1) b' hb'lt
    have hb'b : distLe b' b := by
      rw [hb']
      split
      · exact Or.inl (by assumption)
      · exact distLe_refl b
    have hb'c : distLe b' (d q c, i) := by
      rw [hb']
      split
      · exact distLe_refl _
      · rcases lt_or_eq_of_le (not_lt.mp (by assumption)) with h | h
        · exact Or.inl h
        · exact Or.inr ⟨h, le_of_lt hb⟩
    have hmb' : distLe m b' := hmin b' (List.mem_cons_self b' _)
    refine ⟨m, hm, ?_, ?_⟩
    · rcases List.mem_cons.mp hmem with h | h
      · rw [hb'] at h
        rw [pairsAux]
        split at h
        · exact h ▸ List.mem_cons_of_mem _ (List.mem_cons_self _ _)
        · exact h ▸ List.mem_cons_self _ _
      · exact List.mem_cons_of_mem _ (List.mem_cons_of_mem _ h)
    · intro x hx
      rw [pairsAux] at hx
      rcases List.mem_cons.mp hx with h | hx'

      · exact h ▸ Trans.trans hmb' hb'b
      · rcases List.mem_cons.mp hx' with h | h
        · exact h ▸ Trans.trans hmb' hb'c
        · exact hmin x (List.mem_cons_of_mem _ h)

/-- The brute-force scan of a nonempty candidate list returns a
`distLe`-least distance/index pair. -/
theorem bruteScan_minPair (d : P → P → α) (q : P) (cands : List P) (hc : cands ≠ []) :
    ∃ m, bruteScan d q cands = some m ∧ MinPair (pairsAux d q 0 cands) m := by
  rcases cands with _ | ⟨c, cs⟩
  · exact absurd rfl hc
  · rw [bruteScan, bruteAux]
    obtain ⟨m, hm, hmin⟩ := bruteAux_minPair d q cs 1 (d q c, 0) (by omega)
    exact ⟨m, hm, by rw [pairsAux]; exact hmin⟩

theorem except_bind_ok {ε β γ : Type} (a : β) (f : β → Except ε γ) :
    (Except.ok a >>= f : Except ε γ) = f a := rfl

theorem except_bind_error {ε β γ : Type} (e : ε) (f : β → Except ε γ) :
    (Except.error e >>= f : Except ε γ) = Except.error e := rfl

theorem treeCandidates_built (d : P → P → α) (cands : List P) (ls : ℕ) (q : P) :
    treeCandidates d ⟨cands, buildBTree ls (List.range cands.length), ls⟩ q =
      pairsAux d q 0 cands := by
  show (buildBTree ls (List.range cands.length)).elems.filterMap _ = _
  rw [elems_buildBTree, ← filterMap_range_eq_pairsAux d q cands 0]
  apply List.filterMap_congr
  intro j _
  cases cands[j]? with
  | none => rfl
  | some c => simp

theorem take_one_of_head {β : Type} {l : List β} {m : β} (h : l.head? = some m) :
    l.take 1 = [m] := by
  cases l with
  | nil => simp at h
  | cons a t => simp at h; simp [h]

theorem pairsAux_ne_nil (d : P → P → α) (q : P) (cands : List P) (hc : cands ≠ []) :
    pairsAux d q 0 cands ≠ [] := by
  intro h
  have := pairsAux_length d q cands 0
  rw [h] at this
  exact hc (List.length_eq_zero.mp this.symm)

/-- For `k = 1`, the query row of a freshly built tree is exactly the
singleton of the brute-force scan result. -/
theorem queryRow_one (d : P → P → α) (cands : List P) (ls : ℕ) (hc : cands ≠ []) :
    ∀ q, queryRow d ⟨cands, buildBTree ls (List.range cands.length), ls⟩ q 1 =
      [(bruteD d q cands, bruteIdx d q cands)] := by
  intro q
  obtain ⟨mb, hmb, hminb⟩ := bruteScan_minPair d q cands hc
  obtain ⟨ms, hms, hmins⟩ :=
    head_insertionSort_minPair (pairsAux d q 0 cands) (pairsAux_ne_nil d q cands hc)
  have hmm : ms = mb := minPair_unique hmins hminb
  rw [queryRow, treeCandidates_built, take_one_of_head hms, hmm, bruteD, bruteIdx, hmb]
  simp

theorem transposeMat_singleton {β γ : Type} (src : List γ) (f : γ → β) (hs : src ≠ []) :
    transposeMat (src.map (fun q => [f q])) = [src.map f] := by
  rcases src with _ | ⟨s, rest⟩
  · exact absurd rfl hs
  · rw [transposeMat]
    have h1 : (((s :: rest).map (fun q => [f q])).headD []).length = 1 := by simp
    rw [h1, show List.range 1 = [0] from rfl]
    show [((s :: rest).map (fun q => [f q])).filterMap (fun row => row[0]?)] =
      [(s :: rest).map f]
    congr 1
    rw [List.filterMap_map]
    exact List.filterMap_eq_map_iff_forall_eq_some.mpr fun x _ => rfl

/-- Characterization of `get_nearest` with `k_neighbors = 1` on
nonempty inputs, generic in the metric: it succeeds and returns, in
query order, exactly the index and distance selected by the brute-force
scan of the candidate list. -/
theorem getNearestG_one (d : P → P → α) (ls : ℕ) (src cands : List P)
    (hs : src ≠ []) (hc : cands ≠ []) :
    getNearestG d ls src cands 1 =
      .ok (src.map (fun q => bruteIdx d q cands), src.map (fun q => bruteD d q cands)) := by
  have hce : cands.isEmpty = false := by simp [List.isEmpty_iff, hc]
  have hse : src.isEmpty = false := by simp [List.isEmpty_iff, hs]
  have hk : ¬ (cands.length < 1) := by
    have := List.length_pos.mpr hc
    omega
  rw [getNearestG, ballTreeBuild, hce]
  simp only [Bool.false_eq_true, if_false, except_bind_ok]
  rw [ballTreeQuery, hse]
  simp only [Bool.false_eq_true, if_false, if_neg hk, except_bind_ok]
  simp only [queryRow_one d cands ls hc]
  simp only [List.map_cons, List.map_nil]
  rw [transposeMat_singleton src _ hs, transposeMat_singleton src _ hs]
  rfl

/-- The index selected by the brute-force scan of a nonempty candidate
list is a valid candidate index. -/
theorem bruteIdx_lt (d : P → P → α) (q : P) (cands : List P) (hc : cands ≠ []) :
    bruteIdx d q cands < cands.length := by
  obtain ⟨m, hm, hmem, _⟩ := bruteScan_minPair d q cands hc
  have hlt := pairsAux_snd_lt d q cands 0 m hmem
  rw [bruteIdx, hm]
  simpa using hlt

theorem queryRow_built (d : P → P → α) (cands : List P) (ls : ℕ) (q : P) (k : ℕ) :
    queryRow d ⟨cands, buildBTree ls (List.range cands.length), ls⟩ q k =
      ((pairsAux d q 0 cands).insertionSort distLe).take k := by
  rw [queryRow, treeCandidates_built]

theorem length_insertionSort_pairs (d : P → P → α) (q : P) (cands : List P) :
    ((pairsAux d q 0 cands).insertionSort distLe).length = cands.length := by
  rw [((pairsAux d q 0 cands).perm_insertionSort distLe).length_eq, pairsAux_length]

theorem queryRow_built_length (d : P → P → α) (cands : List P) (ls : ℕ) (q : P) (k : ℕ)
    (hkn : k ≤ cands.length) :
    (queryRow d ⟨cands, buildBTree ls (List.range cands.length), ls⟩ q k).length = k := by
  rw [queryRow_built, List.length_take, length_insertionSort_pairs]
  omega

theorem queryRow_built_sorted (d : P → P → α) (cands : List P) (ls : ℕ) (q : P) (k : ℕ) :
    ((queryRow d ⟨cands, buildBTree ls (List.range cands.length), ls⟩ q k).map
      Prod.fst).Sorted (· ≤ ·) := by
  rw [queryRow_built]
  have hs := (pairsAux d q 0 cands).sorted_insertionSort distLe
  have ht : (((pairsAux d q 0 cands).insertionSort distLe).take k).Pairwise distLe :=
    hs.sublist (List.take_sublist _ _)
  rw [List.Sorted, List.pairwise_map]
  refine ht.imp ?_
  intro a b hab
  rcases hab with h | ⟨h, _⟩
  · exact le_of_lt h
  · exact le_of_eq h

theorem queryRow_built_nodup (d : P → P → α) (cands : List P) (ls : ℕ) (q : P) (k : ℕ) :
    ((queryRow d ⟨cands, buildBTree ls (List.range cands.length), ls⟩ q k).map
      Prod.snd).Nodup := by
  rw [queryRow_built]
  have hpairs : ((pairsAux d q 0 cands).map Prod.snd).Nodup := by
    rw [List.Nodup, List.pairwise_map]
    exact (pairsAux_pairwise d q cands 0).imp (fun h => Nat.ne_of_lt h)
  have hperm : (((pairsAux d q 0 cands).insertionSort distLe).map Prod.snd).Nodup := by
    exact (((pairsAux d q 0 cands).perm_insertionSort distLe).map Prod.snd).nodup_iff.mpr
      hpairs
  exact hperm.sublist ((List.take_sublist _ _).map Prod.snd)

theorem queryRow_built_bounds (d : P → P → α) (cands : List P) (ls : ℕ) (q : P) (k : ℕ) :
    ∀ i ∈ (queryRow d ⟨cands, buildBTree ls (List.range cands.length), ls⟩ q k).map
      Prod.snd, i < cands.length := by
  rw [queryRow_built]
  intro i hi
  rcases List.mem_map.mp hi with ⟨p, hp, rfl⟩
  have hp' : p ∈ (pairsAux d q 0 cands).insertionSort distLe :=
    List.take_subset _ _ hp
  have hp'' : p ∈ pairsAux d q 0 cands :=
    ((pairsAux d q 0 cands).perm_insertionSort distLe).mem_iff.mp hp'
  have := pairsAux_snd_lt d q cands 0 p hp''
  omega

/-- Row 0 of the transpose of a nonempty matrix with nonempty rows:
the list of the first entries of all rows. -/
theorem transposeMat_row0 {β : Type} (x0 : β) (m : List (List β)) (hm : m ≠ [])
    (h : ∀ row ∈ m, row ≠ []) :
    (transposeMat m)[0]? = some (m.map (fun row => row.headD x0)) := by
  rcases m with _ | ⟨r, rest⟩
  · exact absurd rfl hm
  · have hr : r ≠ [] := h r (List.mem_cons_self r rest)
    have hk0 : ((r :: rest).headD []).length = r.length := by simp
    rcases r with _ | ⟨a, rtail⟩
    · exact absurd rfl hr
    · rw [transposeMat, hk0, List.length_cons, List.range_succ_eq_map, List.map_cons,
        List.getElem?_cons_zero]
      congr 1
      apply List.filterMap_eq_map_iff_forall_eq_some.mpr
      intro row hrow
      have : row ≠ [] := h row hrow
      rcases row with _ | ⟨b, btail⟩
      · exact absurd rfl this
      · simp

/-- For `1 ≤ k ≤ |candidates|` and nonempty inputs, `get_nearest`
succeeds, and the two returned arrays have one entry per query point
(not `k` entries): the transposition and `[0]` extraction keep only the
single nearest neighbor of each query point. -/
theorem getNearestG_k_shape (d : P → P → α) (ls : ℕ) (src cands : List P) (k : ℕ)
    (hs : src ≠ []) (hc : cands ≠ []) (hk1 : 1 ≤ k) (hkn : k ≤ cands.length) :
    ∃ ci cd, getNearestG d ls src cands k = .ok (ci, cd) ∧
      ci.length = src.length ∧ cd.length = src.length := by
  have hce : cands.isEmpty = false := by simp [List.isEmpty_iff, hc]
  have hse : src.isEmpty = false := by simp [List.isEmpty_iff, hs]
  have hklt : ¬ (cands.length < k) := by omega
  have hrowlen : ∀ q : P,
      (queryRow d ⟨cands, buildBTree ls (List.range cands.length), ls⟩ q k).length = k :=
    fun q => queryRow_built_length d cands ls q k hkn
  rcases src with _ | ⟨s, srest⟩
  · exact absurd rfl hs
  set t : SKBallTree P := ⟨cands, buildBTree ls (List.range cands.length), ls⟩ with ht
  set dmat := (s :: srest).map (fun q => (queryRow d t q k).map Prod.fst) with hdmat
  set imat := (s :: srest).map (fun q => (queryRow d t q k).map Prod.snd) with himat
  have hdne : ∀ row ∈ dmat, row ≠ [] := by
    intro row hrow
    rcases List.mem_map.mp hrow with ⟨q, _, rfl⟩
    intro hnil
    have := List.length_eq_zero.mpr hnil
    rw [List.length_map, hrowlen q] at this
    omega
  have hine : ∀ row ∈ imat, row ≠ [] := by
    intro row hrow
    rcases List.mem_map.mp hrow with ⟨q, _, rfl⟩
    intro hnil
    have := List.length_eq_zero.mpr hnil
    rw [List.length_map, hrowlen q] at this
    omega
  have hdm : dmat ≠ [] := by simp [hdmat]
  have him : imat ≠ [] := by simp [himat]
  obtain hrow0i := transposeMat_row0 0 imat him hine
  refine ⟨imat.map (fun row => row.headD 0), ?_, ?_, ?_, ?_⟩
  case _ => exact dmat.map (fun row => row.headD (d s s))
  · rw [getNearestG, ballTreeBuild, hce]
    simp only [Bool.false_eq_true, if_false, except_bind_ok]
    rw [ballTreeQuery, hse]
    simp only [Bool.false_eq_true, if_false, if_neg hklt, except_bind_ok]
    rw [← ht, ← hdmat, ← himat]
    rw [transposeMat_row0 0 imat him hine, transposeMat_row0 (d s s) dmat hdm hdne]
  · simp [himat]
  · simp [hdmat]

/-- With `k = 0` (allowed by numpy: `np.zeros((n, 0))`), the query
itself succeeds with zero-width rows, and the failure only surfaces as
an untyped `IndexError` at `indices[0]` after transposition. -/
theorem getNearestG_kzero (d : P → P → α) (ls : ℕ) (src cands : List P)
    (hs : src ≠ []) (hc : cands ≠ []) :
    getNearestG d ls src cands 0 = .error .indexError := by
  have hce : cands.isEmpty = false := by simp [List.isEmpty_iff, hc]
  have hse : src.isEmpty = false := by simp [List.isEmpty_iff, hs]
  have hklt : ¬ (cands.length < 0) := by omega
  rw [getNearestG, ballTreeBuild, hce]
  simp only [Bool.false_eq_true, if_false, except_bind_ok]
  rw [ballTreeQuery, hse]
  simp only [Bool.false_eq_true, if_false, if_neg hklt, except_bind_ok]
  have hrow : ∀ q : P,
      queryRow d ⟨cands, buildBTree ls (List.range cands.length), ls⟩ q 0 = [] := by
    intro q
    rw [queryRow, List.take_zero]
  simp only [hrow, List.map_nil]
  rcases src with _ | ⟨s, srest⟩
  · exact absurd rfl hs
  · rfl

/-- With `k` larger than the candidate count, `tree.query` raises the
untyped sklearn `ValueError`. -/
theorem getNearestG_kbig (d : P → P → α) (ls : ℕ) (src cands : List P) (k : ℕ)
    (hs : src ≠ []) (hc : cands ≠ []) (hk : cands.length < k) :
    getNearestG d ls src cands k = .error (.valueError msgKTooLarge) := by
  have hce : cands.isEmpty = false := by simp [List.isEmpty_iff, hc]
  have hse : src.isEmpty = false := by simp [List.isEmpty_iff, hs]
  rw [getNearestG, ballTreeBuild, hce]
  simp only [Bool.false_eq_true, if_false, except_bind_ok]
  rw [ballTreeQuery, hse]
  simp only [Bool.false_eq_true, if_false, if_pos hk]
  rfl

theorem locAll_ok {β : Type} (rows : List β) (d0 : β) :
    ∀ idxs : List ℕ, (∀ i ∈ idxs, i < rows.length) →
      locAll rows idxs = .ok (idxs.map (fun i => rows.getD i d0)) := by
  intro idxs
  induction idxs with
  | nil => intro _; rfl
  | cons i is ih =>
    intro h
    have hi : i < rows.length := h i (List.mem_cons_self i is)
    rcases hv : rows[i]? with _ | v
    · rw [List.getElem?_eq_none_iff] at hv
      omega
    · rw [locAll, hv, ih (fun j hj => h j (List.mem_cons_of_mem i hj))]
      simp [List.getD_eq_getElem?_getD, hv]

/-- Calling the matcher with an empty candidate set fails inside the
BallTree construction with the untyped sklearn `ValueError`. -/
theorem nearest_neighbor_empty_cands (Q : List RPt) (rd : Bool) :
    nearest_neighbor Q [] rd = .error (.valueError msgEmptyData) := rfl

/-- Calling the matcher with an empty query set fails inside
`tree.query` input validation with the untyped sklearn `ValueError`. -/
theorem nearest_neighbor_empty_query (C : List RPt) (rd : Bool) (hc : C ≠ []) :
    nearest_neighbor [] C rd = .error (.valueError msgBadQuery) := by
  have hce : (C.map toRadians).isEmpty = false := by
    simp [List.isEmpty_iff, hc]
  rw [nearest_neighbor]
  show (match get_nearest ([].map toRadians) (C.map toRadians) 1 with
    | .error e => (.error e : Except PyError NNResult)
    | .ok (closest, dist) => _) = _
  rw [get_nearest, getNearestG, ballTreeBuild, hce]
  rfl

/-- Full characterization of `nearest_neighbor` on nonempty inputs: it
succeeds, the geometry column lists, in query order, the candidate rows
selected by the brute-force haversine scan in radian space, and the
distance column (when requested) is the scanned angular distance scaled
by the Earth radius. -/
theorem nearest_neighbor_ok (Q C : List RPt) (rd : Bool) (hq : Q ≠ []) (hc : C ≠ []) :
    nearest_neighbor Q C rd =
      .ok ⟨Q.map (fun q => C.getD (bruteIdx hav (toRadians q) (C.map toRadians)) (0, 0)),
           if rd then
             some (Q.map (fun q => bruteD hav (toRadians q) (C.map toRadians) * earth_radius))
           else none⟩ := by
  have hqr : Q.map toRadians ≠ [] := by simp [hq]
  have hcr : C.map toRadians ≠ [] := by simp [hc]
  have hget := getNearestG_one hav 15 (Q.map toRadians) (C.map toRadians) hqr hcr
  have hbound : ∀ i ∈ (Q.map toRadians).map (fun q => bruteIdx hav q (C.map toRadians)),
      i < C.length := by
    intro i hi
    rcases List.mem_map.mp hi with ⟨qr, _, rfl⟩
    have := bruteIdx_lt hav qr (C.map toRadians) hcr
    simpa using this
  have hloc := locAll_ok C (0, 0) _ hbound
  simp only [nearest_neighbor, get_nearest, hget, hloc]
  rcases rd with _ | _
  · simp [List.map_map, Function.comp_def]
  · simp [List.map_map, Function.comp_def]

/-- The query output of the index is independent of the `leaf_size`
used to build it: construction rearranges candidate indices into a
tree whose shape depends on `leaf_size`, but flattening recovers the
same candidate set, and the sorted answer is therefore identical. -/
theorem getNearestG_leaf_indep {P : Type} {α : Type} [LinearOrder α] (d : P → P → α)
    (ls₁ ls₂ : ℕ) (src cands : List P) (k : ℕ) :
    getNearestG d ls₁ src cands k = getNearestG d ls₂ src cands k := by
  rw [getNearestG, getNearestG, ballTreeBuild, ballTreeBuild]
  by_cases hce : cands.isEmpty
  · rw [if_pos hce, if_pos hce]
  · rw [if_neg hce, if_neg hce, except_bind_ok, except_bind_ok]
    have hq : ∀ q k', queryRow d ⟨cands, buildBTree ls₁ (List.range cands.length), ls₁⟩ q k' =
        queryRow d ⟨cands, buildBTree ls₂ (List.range cands.length), ls₂⟩ q k' := by
      intro q k'
      rw [queryRow_built, queryRow_built]
    rw [ballTreeQuery, ballTreeQuery]
    simp only [hq]

/-- C1: for every nonempty query point set and nonempty candidate point
set, `get_nearest` (as called by `nearest_neighbor`, with
`k_neighbors = 1`) selects for every query point exactly the candidate
index found by a brute-force scan over the candidate list under the same
haversine metric, with the consistent tie-breaking rule "earliest
candidate wins", and returns the corresponding distances. -/
theorem claim_C1_match_eq_bruteforce (src_points candidates : List RPt)
    (hs : src_points ≠ []) (hc : candidates ≠ []) :
    get_nearest src_points candidates 1 =
      .ok (src_points.map (fun q => bruteIdx hav q candidates),
           src_points.map (fun q => bruteD hav q candidates)) :=
  getNearestG_one hav 15 src_points candidates hs hc

/-- Witness for C1 at concrete one-point inputs. -/
theorem claim_C1_witness :
    (([((1:ℝ), 2)] : List RPt) ≠ [] ∧ ([((3:ℝ), 4)] : List RPt) ≠ []) ∧
    get_nearest [((1:ℝ), 2)] [((3:ℝ), 4)] 1 =
      .ok ([((1:ℝ), 2)].map (fun q => bruteIdx hav q [((3:ℝ), 4)]),
           [((1:ℝ), 2)].map (fun q => bruteD hav q [((3:ℝ), 4)])) :=
  ⟨⟨by simp, by simp⟩,
    claim_C1_match_eq_bruteforce [((1:ℝ), 2)] [((3:ℝ), 4)] (by simp) (by simp)⟩

/-- C2: whenever `nearest_neighbor` returns a result, the geometry
column has exactly one entry per query point, and entry `i` is the
candidate row matched to query point `i`; since the result is the
pointwise map of a per-query selector over the query list, permuting the
query list permutes the results accordingly. -/
theorem claim_C2_result_order (Q C : List RPt) (rd : Bool) (r : NNResult)
    (h : nearest_neighbor Q C rd = .ok r) :
    r.geometry.length = Q.length ∧
    r.geometry = Q.map (fun q => C.getD (bruteIdx hav (toRadians q) (C.map toRadians)) (0, 0)) := by
  have hc : C ≠ [] := by
    intro hC
    rw [hC, nearest_neighbor_empty_cands] at h
    exact Except.noConfusion h
  have hq : Q ≠ [] := by
    intro hQ
    rw [hQ, nearest_neighbor_empty_query C rd hc] at h
    exact Except.noConfusion h
  rw [nearest_neighbor_ok Q C rd hq hc] at h
  have hr := Except.ok.inj h
  constructor
  · rw [← hr]
    simp
  · rw [← hr]

/-- Witness for C2 at concrete one-point inputs. -/
theorem claim_C2_witness :
    nearest_neighbor [((1:ℝ), 2)] [((3:ℝ), 4)] false = .ok ⟨[((3:ℝ), 4)], none⟩ ∧
    (NNResult.mk [((3:ℝ), 4)] none).geometry.length = ([((1:ℝ), 2)] : List RPt).length ∧
    (NNResult.mk [((3:ℝ), 4)] none).geometry =
      [((1:ℝ), 2)].map (fun q =>
        [((3:ℝ), 4)].getD (bruteIdx hav (toRadians q) ([((3:ℝ), 4)].map toRadians)) (0, 0)) :=
  ⟨rfl, claim_C2_result_order [((1:ℝ), 2)] [((3:ℝ), 4)] false ⟨[((3:ℝ), 4)], none⟩ rfl⟩

/-- C3 (amended): for every query set, calling the matcher with an
empty candidate set fails with the untyped sklearn `ValueError` raised
by array validation inside the BallTree construction — not with a typed
`EmptyCandidateSetError` checked before construction — and no partial
result is returned. -/
theorem claim_C3_empty_candidates (Q : List RPt) (rd : Bool) :
    nearest_neighbor Q [] rd = .error (.valueError msgEmptyData) :=
  nearest_neighbor_empty_cands Q rd

/-- Counterexample for C3 as stated: at a concrete query set, the error
is the untyped `ValueError`, not `EmptyCandidateSetError`. -/
theorem claim_C3_counterexample :
    nearest_neighbor [((24.9:ℝ), 60.1)] [] false = .error (.valueError msgEmptyData) ∧
    PyError.valueError msgEmptyData ≠ PyError.emptyCandidateSetError :=
  ⟨rfl, by simp⟩

/-- C4 (amended): for `1 ≤ k ≤ |candidates|`, the underlying tree query
does return, per query point, `k` candidate indices sorted by ascending
distance, each unique and within bounds — but `get_nearest` itself then
discards all but row 0 of the transposed answer, returning exactly one
index and one distance per query point whatever `k_neighbors` is. -/
theorem claim_C4_knn_query (cands : List RPt) (q : RPt) (ls k : ℕ)
    (hc : cands ≠ []) (hk1 : 1 ≤ k) (hkn : k ≤ cands.length) :
    ∃ drow irow,
      (ballTreeBuild cands ls >>= fun t => ballTreeQuery hav t [q] k) =
        .ok ([drow], [irow]) ∧
      irow.length = k ∧ irow.Nodup ∧ (∀ i ∈ irow, i < cands.length) ∧
      drow.Sorted (· ≤ ·) ∧
      (∀ src ci cd, src ≠ [] → get_nearest src cands k = .ok (ci, cd) →
        ci.length = src.length) := by
  have hce : cands.isEmpty = false := by simp [List.isEmpty_iff, hc]
  have hklt : ¬ (cands.length < k) := by omega
  set t : SKBallTree RPt := ⟨cands, buildBTree ls (List.range cands.length), ls⟩ with ht
  refine ⟨(queryRow hav t q k).map Prod.fst, (queryRow hav t q k).map Prod.snd,
    ?_, ?_, ?_, ?_, ?_, ?_⟩
  · rw [ballTreeBuild, hce]
    simp only [Bool.false_eq_true, if_false, except_bind_ok]
    rw [ballTreeQuery]
    simp only [List.isEmpty_cons, Bool.false_eq_true, if_false, if_neg hklt,
      List.map_cons, List.map_nil]
  · rw [List.length_map, ht, queryRow_built_length hav cands ls q k hkn]
  · exact ht ▸ queryRow_built_nodup hav cands ls q k
  · exact ht ▸ queryRow_built_bounds hav cands ls q k
  · exact ht ▸ queryRow_built_sorted hav cands ls q k
  · intro src ci cd hsrc hok
    obtain ⟨ci', cd', hok', hlen, _⟩ :=
      getNearestG_k_shape hav 15 src cands k hsrc hc hk1 hkn
    rw [get_nearest, hok'] at hok
    have := Except.ok.inj hok
    have hci : ci' = ci := congrArg Prod.fst this
    rw [← hci, hlen]

/-- Counterexample for C4 as stated: with 5 candidates and
`k_neighbors = 3`, `get_nearest` succeeds but returns 1 index for the
single query point, not 3. -/
theorem claim_C4_counterexample :
    (get_nearest [((0:ℝ), 0)]
        [((1:ℝ), 0), ((2:ℝ), 0), ((3:ℝ), 0), ((4:ℝ), 0), ((5:ℝ), 0)] 3).map
      (fun r => r.1.length) = .ok 1 ∧ (1 : ℕ) ≠ 3 := by
  refine ⟨?_, by simp⟩
  obtain ⟨ci, cd, hok, hlen, _⟩ :=
    getNearestG_k_shape hav 15 [((0:ℝ), 0)]
      [((1:ℝ), 0), ((2:ℝ), 0), ((3:ℝ), 0), ((4:ℝ), 0), ((5:ℝ), 0)] 3
      (by simp) (by simp) (by omega) (by simp)
  rw [get_nearest, hok]
  simp [Except.map, hlen]

/-- Witness for C4 (amended) at `k = 3` out of 5 candidates. -/
theorem claim_C4_witness :
    (([((1:ℝ), 0), ((2:ℝ), 0), ((3:ℝ), 0), ((4:ℝ), 0), ((5:ℝ), 0)] : List RPt) ≠ [] ∧
      1 ≤ 3 ∧ 3 ≤ ([((1:ℝ), 0), ((2:ℝ), 0), ((3:ℝ), 0), ((4:ℝ), 0), ((5:ℝ), 0)] : List RPt).length) ∧
    (∃ drow irow,
      (ballTreeBuild [((1:ℝ), 0), ((2:ℝ), 0), ((3:ℝ), 0), ((4:ℝ), 0), ((5:ℝ), 0)] 15 >>=
          fun t => ballTreeQuery hav t [((0:ℝ), 0)] 3) =
        .ok ([drow], [irow]) ∧
      irow.length = 3 ∧ irow.Nodup ∧
      (∀ i ∈ irow, i < ([((1:ℝ), 0), ((2:ℝ), 0), ((3:ℝ), 0), ((4:ℝ), 0), ((5:ℝ), 0)] : List RPt).length) ∧
      drow.Sorted (· ≤ ·) ∧
      (∀ src ci cd, src ≠ [] →
        get_nearest src [((1:ℝ), 0), ((2:ℝ), 0), ((3:ℝ), 0), ((4:ℝ), 0), ((5:ℝ), 0)] 3 =
          .ok (ci, cd) → ci.length = src.length)) :=
  ⟨⟨by simp, by omega, by simp⟩,
    claim_C4_knn_query [((1:ℝ), 0), ((2:ℝ), 0), ((3:ℝ), 0), ((4:ℝ), 0), ((5:ℝ), 0)]
      ((0:ℝ), 0) 15 3 (by simp) (by omega) (by simp)⟩

/-- C5: for nonempty inputs, the degree-to-radian conversion applied to
each point is exactly `degrees * π / 180` on each coordinate component
independently, in query order, and the returned meter distances are the
angular (radian) distances of the matched pairs multiplied by the fixed
Earth radius 6,371,000 m. -/
theorem claim_C5_radians_and_meters (Q C : List RPt) (hq : Q ≠ []) (hc : C ≠ []) :
    nearest_neighbor Q C true =
      .ok ⟨Q.map (fun q =>
            C.getD (bruteIdx hav (q.1 * Real.pi / 180, q.2 * Real.pi / 180)
              (C.map (fun p => (p.1 * Real.pi / 180, p.2 * Real.pi / 180)))) (0, 0)),
          some (Q.map (fun q =>
            bruteD hav (q.1 * Real.pi / 180, q.2 * Real.pi / 180)
              (C.map (fun p => (p.1 * Real.pi / 180, p.2 * Real.pi / 180))) * 6371000))⟩ := by
  rw [nearest_neighbor_ok Q C true hq hc,
    show toRadians = fun p : RPt => (p.1 * Real.pi / 180, p.2 * Real.pi / 180) from rfl]
  simp only [if_true, earth_radius]

/-- Witness for C5 at concrete one-point inputs. -/
theorem claim_C5_witness :
    (([((1:ℝ), 2)] : List RPt) ≠ [] ∧ ([((3:ℝ), 4)] : List RPt) ≠ []) ∧
    nearest_neighbor [((1:ℝ), 2)] [((3:ℝ), 4)] true =
      .ok ⟨[((1:ℝ), 2)].map (fun q =>
            [((3:ℝ), 4)].getD (bruteIdx hav (q.1 * Real.pi / 180, q.2 * Real.pi / 180)
              ([((3:ℝ), 4)].map (fun p => (p.1 * Real.pi / 180, p.2 * Real.pi / 180)))) (0, 0)),
          some ([((1:ℝ), 2)].map (fun q =>
            bruteD hav (q.1 * Real.pi / 180, q.2 * Real.pi / 180)
              ([((3:ℝ), 4)].map (fun p => (p.1 * Real.pi / 180, p.2 * Real.pi / 180))) * 6371000))⟩ :=
  ⟨⟨by simp, by simp⟩,
    claim_C5_radians_and_meters [((1:ℝ), 2)] [((3:ℝ), 4)] (by simp) (by simp)⟩

/-- C6 (amended): for every nonempty candidate set, calling the matcher
with an empty query set does not return an empty result: it fails with
the untyped sklearn `ValueError` raised by the query input validation
inside `tree.query`. -/
theorem claim_C6_empty_query (C : List RPt) (rd : Bool) (hc : C ≠ []) :
    nearest_neighbor [] C rd = .error (.valueError msgBadQuery) :=
  nearest_neighbor_empty_query C rd hc

/-- Counterexample for C6 as stated: at a concrete nonempty candidate
set, the call with an empty query set returns an error, not an empty
result. -/
theorem claim_C6_counterexample :
    nearest_neighbor [] [((24.95:ℝ), 60.17)] false = .error (.valueError msgBadQuery) := rfl

/-- Witness for C6 (amended) at a concrete candidate set. -/
theorem claim_C6_witness :
    (([((25.0:ℝ), 60.2)] : List RPt) ≠ []) ∧
    nearest_neighbor [] [((25.0:ℝ), 60.2)] true = .error (.valueError msgBadQuery) :=
  ⟨by simp, claim_C6_empty_query [((25.0:ℝ), 60.2)] true (by simp)⟩

/-- C7 (amended): for nonempty inputs and a neighbor count outside
`[1, |candidates|]`, the call fails, but with an untyped error — the
sklearn `ValueError` when `k` exceeds the candidate count, and a numpy
`IndexError` (surfacing only after the query, at `indices[0]`) when
`k = 0` — never with a typed `InvalidKError`. -/
theorem claim_C7_bad_k (src cands : List RPt) (k : ℕ) (hs : src ≠ []) (hc : cands ≠ [])
    (hk : k = 0 ∨ cands.length < k) :
    ∃ e, get_nearest src cands k = .error e ∧ e ≠ .invalidKError := by
  rcases hk with hk | hk
  · subst hk
    exact ⟨.indexError, getNearestG_kzero hav 15 src cands hs hc, by simp⟩
  · exact ⟨.valueError msgKTooLarge, getNearestG_kbig hav 15 src cands k hs hc hk, by simp⟩

/-- Counterexample for C7 as stated: at concrete inputs with `k = 2`
and one candidate, the error is the untyped sklearn `ValueError`, not
`InvalidKError`. -/
theorem claim_C7_counterexample :
    get_nearest [((1:ℝ), 2)] [((3:ℝ), 4)] 2 = .error (.valueError msgKTooLarge) ∧
    PyError.valueError msgKTooLarge ≠ PyError.invalidKError :=
  ⟨rfl, by simp⟩

/-- Witness for C7 (amended) at concrete inputs. -/
theorem claim_C7_witness :
    (([((1:ℝ), 2)] : List RPt) ≠ [] ∧ ([((3:ℝ), 4)] : List RPt) ≠ [] ∧
      ((2:ℕ) = 0 ∨ ([((3:ℝ), 4)] : List RPt).length < 2)) ∧
    (∃ e, get_nearest [((1:ℝ), 2)] [((3:ℝ), 4)] 2 = .error e ∧ e ≠ .invalidKError) :=
  ⟨⟨by simp, by simp, by simp⟩,
    claim_C7_bad_k [((1:ℝ), 2)] [((3:ℝ), 4)] 2 (by simp) (by simp) (by simp)⟩

/-- C8: the match computation is deterministic. In this pure embedding,
two calls on identical inputs are definitionally the same value; the
substantive content is the second conjunct: the output of the pipeline
is independent of the internal index-construction parameter
(`leaf_size`), the only tunable of the index build, so there is no
randomized or shape-dependent index effect on results. -/
theorem claim_C8_deterministic :
    (∀ (Q C : List RPt) (rd : Bool), nearest_neighbor Q C rd = nearest_neighbor Q C rd) ∧
    (∀ (src cands : List RPt) (k ls₁ ls₂ : ℕ),
      getNearestG hav ls₁ src cands k = getNearestG hav ls₂ src cands k) :=
  ⟨fun _ _ _ => rfl, fun src cands k ls₁ ls₂ => getNearestG_leaf_indep hav ls₁ ls₂ src cands k⟩

theorem readF_append (h t : Heap) (a : ℕ) (ha : a < h.length) :
    readF (h ++ t) a = readF h a := by
  rw [readF, readF, List.getD_eq_getElem?_getD, List.getD_eq_getElem?_getD,
    List.getElem?_append_left ha]

theorem readF_append_self (h : Heap) (f : PFrame) : readF (h ++ [f]) h.length = f := by
  rw [readF, List.getD_eq_getElem?_getD, List.getElem?_concat_length]
  rfl

theorem readF_writeDistCol_ne (h : Heap) (b a : ℕ) (v : List ℝ) (hne : a ≠ b) :
    readF (writeDistCol h b v) a = readF h a := by
  rw [readF, readF, writeDistCol, List.getD_eq_getElem?_getD, List.getD_eq_getElem?_getD,
    List.getElem?_set_ne (fun hba => hne hba.symm), ← List.getD_eq_getElem?_getD]

/-- Any heap address below the original heap size is untouched by the
stateful matcher: all allocations are fresh, and the single in-place
write targets a fresh frame. -/
theorem nearest_neighbor_st_preserves (h : Heap) (la ra : ℕ) (rd : Bool) (a : ℕ)
    (ha : a < h.length) :
    readF (nearest_neighbor_st h la ra rd).2 a = readF h a := by
  have h1 : readF (h ++ [readF h ra]) a = readF h a := readF_append _ _ a ha
  simp only [nearest_neighbor_st, allocF, readF_append_self]
  split
  · exact h1
  · split
    · exact h1
    · split
      · rw [readF_writeDistCol_ne _ _ a _ (by simp; omega)]
        rw [readF_append _ _ a (by simp; omega), readF_append _ _ a (by simp; omega), h1]
      · rw [readF_append _ _ a (by simp; omega), readF_append _ _ a (by simp; omega), h1]

/-- C9: the matcher does not mutate its inputs: after the call (whether
it returns a result or propagates an exception), the query frame and
the candidate frame on the heap are unchanged; the only allocations are
the transient copies, and the only in-place write targets the freshly
allocated result frame. -/
theorem claim_C9_no_input_mutation (h : Heap) (la ra : ℕ) (rd : Bool)
    (hla : la < h.length) (hra : ra < h.length) :
    readF (nearest_neighbor_st h la ra rd).2 la = readF h la ∧
    readF (nearest_neighbor_st h la ra rd).2 ra = readF h ra :=
  ⟨nearest_neighbor_st_preserves h la ra rd la hla,
   nearest_neighbor_st_preserves h la ra rd ra hra⟩

/-- C10: `nearest_neighbor` feeds `(lon_rad, lat_rad)` pairs (in that
component order, from `geom.x` then `geom.y`) to the haversine metric
of the spatial index, and that metric interprets the FIRST component as
latitude.  Consequently (first conjunct) `get_nearest` runs the generic
pipeline with the metric `hav`; (second conjunct) the computed distance
of any pair equals the true haversine formula evaluated with the two
points' longitudes and latitudes exchanged; (third conjunct) on the
equator (both latitudes zero) this coincides with the true great-circle
distance; (fourth conjunct) it does not coincide in general. -/
theorem claim_C10_swapped_coordinates :
    (∀ (src cands : List RPt) (k : ℕ),
      get_nearest src cands k = getNearestG hav 15 src cands k) ∧
    (∀ a b : RPt, hav a b = trueHaversine a.1 a.2 b.1 b.2) ∧
    (∀ l₁ l₂ : ℝ, hav (l₁, 0) (l₂, 0) = trueHaversine 0 l₁ 0 l₂) ∧
    ¬ (∀ a b : RPt, hav a b = trueHaversine a.2 a.1 b.2 b.1) := by
  refine ⟨fun _ _ _ => rfl, fun a b => rfl, ?_, ?_⟩
  · intro l₁ l₂
    rw [hav, trueHaversine]
    simp [Real.sin_zero, Real.cos_zero]
  · intro hall
    have h := hall (0, Real.pi / 3) (Real.pi / 3, Real.pi / 3)
    rw [hav, trueHaversine] at h
    have e1 : ((0:ℝ) - Real.pi / 3) / 2 = -(Real.pi / 6) := by ring
    have e2 : (Real.pi / 3 - Real.pi / 3) / 2 = 0 := by ring
    simp only at h
    rw [e1, e2] at h
    rw [Real.sin_neg, Real.sin_zero, Real.cos_zero, Real.sin_pi_div_six,
      Real.cos_pi_div_three] at h
    have s1 : Real.sqrt ((-(1/2 : ℝ)) ^ 2 + 1 * (1/2) * 0 ^ 2) = 1/2 := by
      rw [show ((-(1/2 : ℝ)) ^ 2 + 1 * (1/2) * 0 ^ 2) = (1/2 : ℝ)^2 by ring,
        Real.sqrt_sq (by norm_num)]
    have s2 : Real.sqrt ((0:ℝ) ^ 2 + (1/2) * (1/2) * (-(1/2 : ℝ)) ^ 2) = 1/4 := by
      rw [show ((0:ℝ) ^ 2 + (1/2) * (1/2) * (-(1/2 : ℝ)) ^ 2) = (1/4 : ℝ)^2 by ring,
        Real.sqrt_sq (by norm_num)]
    rw [s1, s2] at h
    have harc : Real.arcsin (1/2) = Real.arcsin (1/4) := by linarith
    have v1 : Real.sin (Real.arcsin (1/2)) = 1/2 :=
      Real.sin_arcsin (by norm_num) (by norm_num)
    have v2 : Real.sin (Real.arcsin (1/4)) = 1/4 :=
      Real.sin_arcsin (by norm_num) (by norm_num)
    rw [harc, v2] at v1
    norm_num at v1

/-- Witness for C9 at a concrete two-frame heap. -/
theorem claim_C9_witness :
    ((0:ℕ) < ([⟨[((1:ℝ), 2)], none⟩, ⟨[((3:ℝ), 4)], none⟩] : Heap).length ∧
      (1:ℕ) < ([⟨[((1:ℝ), 2)], none⟩, ⟨[((3:ℝ), 4)], none⟩] : Heap).length) ∧
    (readF (nearest_neighbor_st [⟨[((1:ℝ), 2)], none⟩, ⟨[((3:ℝ), 4)], none⟩] 0 1 true).2 0 =
        readF [⟨[((1:ℝ), 2)], none⟩, ⟨[((3:ℝ), 4)], none⟩] 0 ∧
      readF (nearest_neighbor_st [⟨[((1:ℝ), 2)], none⟩, ⟨[((3:ℝ), 4)], none⟩] 0 1 true).2 1 =
        readF [⟨[((1:ℝ), 2)], none⟩, ⟨[((3:ℝ), 4)], none⟩] 1) :=
  ⟨⟨by simp, by simp⟩,
    claim_C9_no_input_mutation [⟨[((1:ℝ), 2)], none⟩, ⟨[((3:ℝ), 4)], none⟩] 0 1 true
      (by simp) (by simp)⟩

end Thms

end NN
